import Mathlib

/-!
Verification of the version-checker module: parameter validation, version
extraction from shell output, and the minimum-version comparator.

Go strings are modelled as lists of characters; Go errors (formatted
strings) are modelled as a structured error type whose payloads carry the
data interpolated into the corresponding message.  The external shell
runner is modelled as an oracle function passed to the functions that use
it.
-/

deriving instance DecidableEq for Except

namespace VersionChecker

/-- A Go string, modelled as its list of characters. -/
abbrev GoStr := List Char

/-- View a Lean string literal as a Go string. -/
def toChars (s : String) : GoStr := s.data

/-- Maximum value of Go's 64-bit int. -/
def intMax : Int := 2 ^ 63 - 1

/-- Minimum value of Go's 64-bit int. -/
def intMin : Int := -(2 ^ 63)

/-- Base-10 value of a digit string. -/
def digitsVal (l : GoStr) : Nat :=
  l.foldl (fun a c => 10 * a + (c.toNat - 48)) 0

/-- Model of Go strconv.Atoi on a 64-bit platform: an optional sign
followed by one or more ASCII digits, whose value fits the int range;
anything else (including out-of-range values) is an error, here none. -/
def atoi (s : GoStr) : Option Int :=
  let signDigits : Int × GoStr :=
    match s with
    | '+' :: rest => (1, rest)
    | '-' :: rest => (-1, rest)
    | _ => (1, s)
  if signDigits.2.isEmpty then none
  else if !signDigits.2.all Char.isDigit then none
  else
    let v : Int := signDigits.1 * (digitsVal signDigits.2 : Int)
    if intMin ≤ v ∧ v ≤ intMax then some v else none

/-- Model of Go strings.Split(s, ".") on char lists: split on every dot,
keeping empty fields; the empty string yields one empty field. -/
def splitDots : GoStr → List GoStr
  | [] => [[]]
  | c :: t =>
    if c = '.' then [] :: splitDots t
    else
      match splitDots t with
      | [] => [[c]]
      | h :: r => (c :: h) :: r

/-- Structured stand-ins for the distinct error messages produced by the
module.  Payloads hold the data interpolated into the Go message. -/
inductive VCError where
  | emptyExpectedVersion
  | emptyWorkingDir
  | emptyBinary
  | invalidExpectedVersionFormat (expectedVersion : GoStr)
  | unsupportedBinaryFatal
  | shellCommandFailed (binaryName : GoStr) (wrapped : GoStr)
  | extractionFailed (output : GoStr)
  | noVersionFound
  | emptyVersionStr1
  | emptyVersionStr2
  | invalidFormatVersion (version : GoStr)
  | versionTooLow (versionStr1 versionStr2 : GoStr)
  deriving Repr, DecidableEq

/-- The loop of validateBinaryVersionGreaterOrEqual, running over the two
segment lists in lockstep (hence exactly min-length iterations): segment i
of each side is parsed with Atoi (first side first), the first strict
difference decides, and when the loop ends the final length check applies
(first list strictly shorter fails).  The two original strings are carried
for the error messages. -/
def compareLoop (versionStr1 versionStr2 : GoStr) :
    List GoStr → List GoStr → Except VCError Unit
  | [], [] => .ok ()
  | [], _ :: _ => .error (.versionTooLow versionStr1 versionStr2)
  | _ :: _, [] => .ok ()
  | n1 :: t1, n2 :: t2 =>
    match atoi n1 with
    | none => .error (.invalidFormatVersion versionStr1)
    | some v1 =>
      match atoi n2 with
      | none => .error (.invalidFormatVersion versionStr2)
      | some v2 =>
        if v1 < v2 then .error (.versionTooLow versionStr1 versionStr2)
        else if v1 > v2 then .ok ()
        else compareLoop versionStr1 versionStr2 t1 t2

/-- Model of validateBinaryVersionGreaterOrEqual: reject an empty string on
either side, split both on dots, and run the comparison loop. -/
def validateBinaryVersionGreaterOrEqual (versionStr1 versionStr2 : GoStr) :
    Except VCError Unit :=
  if versionStr1.length = 0 then .error .emptyVersionStr1
  else if versionStr2.length = 0 then .error .emptyVersionStr2
  else compareLoop versionStr1 versionStr2 (splitDots versionStr1) (splitDots versionStr2)

/-- A well-formed dotted-numeric version string: non-empty, and every
dot-separated segment is one or more digits and is accepted by Atoi
(i.e. its value fits Go's int range). -/
def wellFormed (s : GoStr) : Bool :=
  !s.isEmpty && (splitDots s).all (fun p => !p.isEmpty && p.all Char.isDigit && (atoi p).isSome)

/-- The integer sequence a version string parses to (segments that fail to
parse contribute a placeholder 0; well-formed strings have none). -/
def parseSeq (s : GoStr) : List Int :=
  (splitDots s).map (fun p => (atoi p).getD 0)

/-- Modelled from the spec, section 4.4: positional comparison of the two
parsed integer sequences — at the first differing position the larger side
wins; if all compared positions are equal, the side with at least as many
segments is greater or equal. -/
def specCompareGE : List Int → List Int → Bool
  | _, [] => true
  | [], _ :: _ => false
  | a :: t1, b :: t2 =>
    if a > b then true
    else if a < b then false
    else specCompareGE t1 t2

/-- Greedy matcher for the `(\.\d+)+` part of the version regex: starting
at the given characters it consumes as many dot-plus-digits groups as
possible and returns the consumed part and the remainder.  Each group
consumes at least two characters, so the length of the input is enough
fuel. -/
def matchGroups : Nat → GoStr → GoStr × GoStr
  | 0, s => ([], s)
  | fuel + 1, s =>
    match s with
    | [] => ([], [])
    | c :: r =>
      if c = '.' then
        if (r.takeWhile Char.isDigit).isEmpty then ([], c :: r)
        else
          (c :: (r.takeWhile Char.isDigit ++ (matchGroups fuel (r.dropWhile Char.isDigit)).1),
            (matchGroups fuel (r.dropWhile Char.isDigit)).2)
      else ([], c :: r)

/-- One attempt to match the version regex at the start of s, with Go's
greedy leftmost-first semantics: a maximal run of digits, then one or more
groups of a dot followed by a maximal run of digits. -/
def matchAt (s : GoStr) : Option GoStr :=
  if (s.takeWhile Char.isDigit).isEmpty then none
  else if ((matchGroups s.length (s.dropWhile Char.isDigit)).1).isEmpty then none
  else some (s.takeWhile Char.isDigit ++ (matchGroups s.length (s.dropWhile Char.isDigit)).1)

/-- Model of FindString for the version regex: try to match at each
position from the left and return the first (leftmost) match; at the end
of the text there is no match since the pattern cannot match the empty
string. -/
def findVersion : GoStr → Option GoStr
  | [] => none
  | c :: t =>
    match matchAt (c :: t) with
    | some v => some v
    | none => findVersion t

/-- Whether a string is exactly a dotted-numeric token of at least two
digit groups, i.e. a full match of the version regex d+(.d+)+. -/
def isVersionToken (v : GoStr) : Bool :=
  decide (2 ≤ (splitDots v).length) &&
    (splitDots v).all (fun p => !p.isEmpty && p.all Char.isDigit)

/-- Model of Go regexp.MatchString for the version regex: unanchored, true
exactly when some substring matches.  Compilation of the fixed, valid
pattern never fails, so the error result is not modelled. -/
def matchString (s : GoStr) : Bool := (findVersion s).isSome

/-- Inverse of splitDots: interleave the parts with dots. -/
def joinDots : List GoStr → GoStr
  | [] => []
  | [p] => p
  | p :: ps => p ++ '.' :: joinDots ps

/-- The strings consumed by one or more groups of a dot followed by a
non-empty run of digits, i.e. matches of `(\.\d+)+`. -/
inductive Groups : GoStr → Prop where
  | one : ∀ d : GoStr, d ≠ [] → d.all Char.isDigit = true → Groups ('.' :: d)
  | cons : ∀ d g : GoStr, d ≠ [] → d.all Char.isDigit = true → Groups g →
      Groups ('.' :: (d ++ g))

/-- Model of extractVersionFromShellCommandOutput: FindString returns the
empty string exactly when there is no match (the pattern cannot match the
empty string), in which case the function fails with the no-version-found
error. -/
def extractVersionFromShellCommandOutput (output : GoStr) : Except VCError GoStr :=
  match findVersion output with
  | none => .error .noVersionFound
  | some v => .ok v

/-- The binary enumeration is a Go int; Docker, Terraform, Packer are the
iota values 0, 1, 2. -/
def Docker : Int := 0

/-- Terraform enumeration value. -/
def Terraform : Int := 1

/-- Packer enumeration value. -/
def Packer : Int := 2

/-- The parameters of a version check. -/
structure CheckVersionParams where
  binary : Int
  expectedVersion : GoStr
  workingDir : GoStr

/-- Model of validateParams: empty-field checks in order (expectedVersion,
workingDir, negative binary), then the unanchored regex check on
expectedVersion. -/
def validateParams (params : CheckVersionParams) : Except VCError Unit :=
  if params.expectedVersion.length = 0 then .error .emptyExpectedVersion
  else if params.workingDir.length = 0 then .error .emptyWorkingDir
  else if params.binary < 0 then .error .emptyBinary
  else if matchString params.expectedVersion then .ok ()
  else .error (.invalidExpectedVersionFormat params.expectedVersion)

/-- The request handed to the external command runner. -/
structure ShellCommand where
  command : GoStr
  args : List GoStr
  workingDir : GoStr

/-- The default version argument passed to the binary. -/
def DefaultVersionArg : GoStr := toChars "--version"

/-- The switch mapping the binary enumeration to an executable name; any
other value falls through to the fatal branch, modelled as none. -/
def binaryName (binary : Int) : Option GoStr :=
  if binary = Docker then some (toChars "docker")
  else if binary = Packer then some (toChars "packer")
  else if binary = Terraform then some (toChars "terraform")
  else none

/-- Model of getVersionWithShellCommand, with the external runner passed
as an oracle from the command to either an error message or the captured
output.  The Fatalf call on an unsupported binary is modelled as the
fatal error value; runner and extraction errors are wrapped as in the
source. -/
def getVersionWithShellCommand (runner : ShellCommand → Except GoStr GoStr)
    (params : CheckVersionParams) : Except VCError GoStr :=
  match binaryName params.binary with
  | none => .error .unsupportedBinaryFatal
  | some name =>
    match runner ⟨name, [DefaultVersionArg], params.workingDir⟩ with
    | .error e => .error (.shellCommandFailed name e)
    | .ok output =>
      match extractVersionFromShellCommandOutput output with
      | .error _ => .error (.extractionFailed output)
      | .ok version => .ok version

/-- Model of CheckVersionE: validate, fetch (which extracts), compare;
stop at the first failing stage. -/
def checkVersionE (runner : ShellCommand → Except GoStr GoStr)
    (params : CheckVersionParams) : Except VCError Unit :=
  match validateParams params with
  | .error e => .error e
  | .ok _ =>
    match getVersionWithShellCommand runner params with
    | .error e => .error e
    | .ok version => validateBinaryVersionGreaterOrEqual version params.expectedVersion

theorem specCompareGE_nil_right : ∀ l : List Int, specCompareGE l [] = true
  | [] => rfl
  | _ :: _ => rfl

theorem specCompareGE_nil_cons (b : Int) (t : List Int) :
    specCompareGE [] (b :: t) = false := rfl

theorem specCompareGE_cons (a b : Int) (t1 t2 : List Int) :
    specCompareGE (a :: t1) (b :: t2) =
      if b < a then true else if a < b then false else specCompareGE t1 t2 := rfl

theorem specCompareGE_refl : ∀ l : List Int, specCompareGE l l = true
  | [] => rfl
  | a :: t => by
    rw [specCompareGE_cons]
    simp [specCompareGE_refl t]

theorem specCompareGE_total : ∀ l1 l2 : List Int,
    specCompareGE l1 l2 = true ∨ specCompareGE l2 l1 = true
  | l1, [] => .inl (specCompareGE_nil_right l1)
  | [], b :: t2 => .inr (specCompareGE_nil_right _)
  | a :: t1, b :: t2 => by
    rw [specCompareGE_cons, specCompareGE_cons]
    rcases lt_trichotomy a b with h | h | h
    · right; simp [h]
    · subst h
      rcases specCompareGE_total t1 t2 with h2 | h2
      · left; simp [h2]
      · right; simp [h2]
    · left; simp [h]

theorem specCompareGE_trans : ∀ l1 l2 l3 : List Int,
    specCompareGE l1 l2 = true → specCompareGE l2 l3 = true →
    specCompareGE l1 l3 = true
  | l1, _, [] => fun _ _ => specCompareGE_nil_right l1
  | _, [], _ :: _ => fun _ h2 => by rw [specCompareGE_nil_cons] at h2; cases h2
  | [], _ :: _, _ :: _ => fun h1 _ => by rw [specCompareGE_nil_cons] at h1; cases h1
  | a :: t1, b :: t2, c :: t3 => fun h1 h2 => by
    rw [specCompareGE_cons] at h1 h2 ⊢
    rcases lt_trichotomy a b with hab | hab | hab
    · rw [if_neg (lt_asymm hab), if_pos hab] at h1; cases h1
    · subst hab
      rw [if_neg (lt_irrefl a)] at h1
      rw [if_neg (lt_irrefl a)] at h1
      rcases lt_trichotomy a c with hac | hac | hac
      · rw [if_neg (lt_asymm hac), if_pos hac] at h2; cases h2
      · subst hac
        rw [if_neg (lt_irrefl a), if_neg (lt_irrefl a)] at h2 ⊢
        exact specCompareGE_trans t1 t2 t3 h1 h2
      · rw [if_pos hac]
    · rcases lt_trichotomy b c with hbc | hbc | hbc
      · rw [if_neg (lt_asymm hbc), if_pos hbc] at h2; cases h2
      · subst hbc; rw [if_pos hab]
      · rw [if_pos (hbc.trans hab)]

theorem specCompareGE_antisymm : ∀ l1 l2 : List Int,
    specCompareGE l1 l2 = true → specCompareGE l2 l1 = true → l1 = l2
  | [], [] => fun _ _ => rfl
  | [], _ :: _ => fun h1 _ => by rw [specCompareGE_nil_cons] at h1; cases h1
  | _ :: _, [] => fun _ h2 => by rw [specCompareGE_nil_cons] at h2; cases h2
  | a :: t1, b :: t2 => fun h1 h2 => by
    rw [specCompareGE_cons] at h1 h2
    rcases lt_trichotomy a b with h | h | h
    · rw [if_neg (lt_asymm h), if_pos h] at h1; cases h1
    · subst h
      rw [if_neg (lt_irrefl a), if_neg (lt_irrefl a)] at h1 h2
      rw [specCompareGE_antisymm t1 t2 h1 h2]
    · rw [if_neg (lt_asymm h), if_pos h] at h2; cases h2

theorem compareLoop_nil_nil (s1 s2 : GoStr) :
    compareLoop s1 s2 [] [] = .ok () := rfl

theorem compareLoop_nil_cons (s1 s2 : GoStr) (b : GoStr) (t2 : List GoStr) :
    compareLoop s1 s2 [] (b :: t2) = .error (.versionTooLow s1 s2) := rfl

theorem compareLoop_cons_nil (s1 s2 : GoStr) (a : GoStr) (t1 : List GoStr) :
    compareLoop s1 s2 (a :: t1) [] = .ok () := rfl

theorem compareLoop_cons_cons (s1 s2 : GoStr) (a b : GoStr) (t1 t2 : List GoStr) :
    compareLoop s1 s2 (a :: t1) (b :: t2) =
      match atoi a with
      | none => .error (.invalidFormatVersion s1)
      | some v1 =>
        match atoi b with
        | none => .error (.invalidFormatVersion s2)
        | some v2 =>
          if v1 < v2 then .error (.versionTooLow s1 s2)
          else if v1 > v2 then .ok ()
          else compareLoop s1 s2 t1 t2 := rfl

/-- With every segment inspected by the loop (indices below the shorter
length) accepted by Atoi, the loop agrees with the positional comparison
of the parsed integer sequences, failing with the error naming both
strings. -/
theorem compareLoop_eq_spec (s1 s2 : GoStr) : ∀ l1 l2 : List GoStr,
    (∀ i, i < min l1.length l2.length →
      ((atoi (l1.getD i [])).isSome ∧ (atoi (l2.getD i [])).isSome)) →
    compareLoop s1 s2 l1 l2 =
      if specCompareGE (l1.map fun p => (atoi p).getD 0) (l2.map fun p => (atoi p).getD 0)
      then .ok () else .error (.versionTooLow s1 s2)
  | [], [] => by
    intro _
    simp [compareLoop_nil_nil, specCompareGE_nil_right]
  | [], b :: t2 => by
    intro _
    simp [compareLoop_nil_cons, specCompareGE_nil_cons]
  | a :: t1, [] => by
    intro _
    simp [compareLoop_cons_nil, specCompareGE_nil_right]
  | a :: t1, b :: t2 => by
    intro h
    have h0 := h 0 (by simp [Nat.lt_min])
    simp only [List.getD_cons_zero] at h0
    obtain ⟨v1, hv1⟩ := Option.isSome_iff_exists.mp h0.1
    obtain ⟨v2, hv2⟩ := Option.isSome_iff_exists.mp h0.2
    have hrec := compareLoop_eq_spec s1 s2 t1 t2 (fun i hi => by
      have := h (i + 1) (by simp only [List.length_cons, Nat.lt_min] at hi ⊢; omega)
      simpa only [List.getD_cons_succ] using this)
    rw [compareLoop_cons_cons]
    simp only [hv1, hv2, List.map_cons, Option.getD_some]
    rw [specCompareGE_cons]
    rcases lt_trichotomy v1 v2 with hc | hc | hc
    · rw [if_pos hc, if_neg (lt_asymm hc), if_pos hc,
        if_neg (Bool.false_ne_true)]
    · subst hc
      rw [if_neg (lt_irrefl v1), if_neg (lt_irrefl v1),
        if_neg (lt_irrefl v1), if_neg (lt_irrefl v1)]
      exact hrec
    · rw [if_neg (lt_asymm hc), if_pos hc, if_pos hc, if_pos rfl]

/-- If every previously compared segment parsed to equal values, then the
loop reaching index i fails with the invalid-format error naming the first
string whose segment at i Atoi rejects (first string checked first). -/
theorem compareLoop_invalidFormat (s1 s2 : GoStr) : ∀ (l1 l2 : List GoStr) (i : Nat),
    i < min l1.length l2.length →
    (∀ j, j < i → ∃ v : Int, atoi (l1.getD j []) = some v ∧ atoi (l2.getD j []) = some v) →
    (atoi (l1.getD i []) = none →
       compareLoop s1 s2 l1 l2 = .error (.invalidFormatVersion s1)) ∧
    (∀ v : Int, atoi (l1.getD i []) = some v → atoi (l2.getD i []) = none →
       compareLoop s1 s2 l1 l2 = .error (.invalidFormatVersion s2))
  | [], l2, i => by intro hi; simp at hi
  | _ :: _, [], i => by intro hi; simp at hi
  | a :: t1, b :: t2, 0 => by
    intro _ _
    refine ⟨fun hnone => ?_, fun v hv hnone => ?_⟩
    · simp only [List.getD_cons_zero] at hnone
      rw [compareLoop_cons_cons, hnone]
    · simp only [List.getD_cons_zero] at hv hnone
      rw [compareLoop_cons_cons, hv, hnone]
  | a :: t1, b :: t2, i + 1 => by
    intro hi hprev
    obtain ⟨v, hva, hvb⟩ := hprev 0 (Nat.succ_pos i)
    simp only [List.getD_cons_zero] at hva hvb
    have hrec := compareLoop_invalidFormat s1 s2 t1 t2 i
      (by simp only [List.length_cons, Nat.lt_min] at hi ⊢; omega)
      (fun j hj => by
        have := hprev (j + 1) (by omega)
        simpa only [List.getD_cons_succ] using this)
    rw [compareLoop_cons_cons]
    simp only [hva, hvb]
    rw [if_neg (lt_irrefl v), if_neg (lt_irrefl v)]
    simpa only [List.getD_cons_succ] using hrec

theorem wellFormed_ne_nil {s : GoStr} (h : wellFormed s = true) : s ≠ [] := by
  intro he
  subst he
  simp [wellFormed] at h

theorem wellFormed_segments {s : GoStr} (h : wellFormed s = true) :
    ∀ p ∈ splitDots s, (atoi p).isSome = true := by
  simp only [wellFormed, Bool.and_eq_true, List.all_eq_true] at h
  intro p hp
  exact (h.2 p hp).2

theorem validate_unfold {s1 s2 : GoStr} (h1 : s1 ≠ []) (h2 : s2 ≠ []) :
    validateBinaryVersionGreaterOrEqual s1 s2 =
      compareLoop s1 s2 (splitDots s1) (splitDots s2) := by
  unfold validateBinaryVersionGreaterOrEqual
  rw [if_neg (fun hh => h1 (List.length_eq_zero.mp hh)),
    if_neg (fun hh => h2 (List.length_eq_zero.mp hh))]

theorem validate_eq_spec (s1 s2 : GoStr)
    (h1 : wellFormed s1 = true) (h2 : wellFormed s2 = true) :
    validateBinaryVersionGreaterOrEqual s1 s2 =
      if specCompareGE (parseSeq s1) (parseSeq s2) then .ok ()
      else .error (.versionTooLow s1 s2) := by
  rw [validate_unfold (wellFormed_ne_nil h1) (wellFormed_ne_nil h2)]
  exact compareLoop_eq_spec s1 s2 _ _ (fun i hi => by
    rw [Nat.lt_min] at hi
    refine ⟨wellFormed_segments h1 _ ?_, wellFormed_segments h2 _ ?_⟩
    · rw [List.getD_eq_getElem _ _ hi.1]
      exact List.getElem_mem hi.1
    · rw [List.getD_eq_getElem _ _ hi.2]
      exact List.getElem_mem hi.2)

theorem validate_ok_iff {s1 s2 : GoStr}
    (h1 : wellFormed s1 = true) (h2 : wellFormed s2 = true) :
    validateBinaryVersionGreaterOrEqual s1 s2 = .ok () ↔
      specCompareGE (parseSeq s1) (parseSeq s2) = true := by
  rw [validate_eq_spec s1 s2 h1 h2]
  cases hspec : specCompareGE (parseSeq s1) (parseSeq s2) <;> simp [hspec]

/-- C1: on well-formed dotted-numeric version strings the comparator agrees
with the positional comparison of the parsed integer sequences: the first
differing index decides immediately (larger actual segment passes, smaller
fails with the version-too-low error naming both strings), and with all
compared positions equal it passes exactly when the actual string has at
least as many segments as the minimum. -/
theorem comparator_matches_positional_spec (s1 s2 : GoStr)
    (h1 : wellFormed s1 = true) (h2 : wellFormed s2 = true) :
    validateBinaryVersionGreaterOrEqual s1 s2 =
      if specCompareGE (parseSeq s1) (parseSeq s2) then .ok ()
      else .error (.versionTooLow s1 s2) :=
  validate_eq_spec s1 s2 h1 h2

/-- Witness for C1, at the spec's prefix-rule pair: 1.2.4 against 1.2
passes and 1.2 against 1.2.4 fails with the error naming both strings. -/
theorem comparator_matches_positional_spec_witness :
    wellFormed (toChars "1.2.4") = true ∧ wellFormed (toChars "1.2") = true ∧
    validateBinaryVersionGreaterOrEqual (toChars "1.2.4") (toChars "1.2") =
      (if specCompareGE (parseSeq (toChars "1.2.4")) (parseSeq (toChars "1.2"))
       then .ok () else .error (.versionTooLow (toChars "1.2.4") (toChars "1.2"))) ∧
    validateBinaryVersionGreaterOrEqual (toChars "1.2") (toChars "1.2.4") =
      (if specCompareGE (parseSeq (toChars "1.2")) (parseSeq (toChars "1.2.4"))
       then .ok () else .error (.versionTooLow (toChars "1.2") (toChars "1.2.4"))) :=
  ⟨by decide, by decide,
    comparator_matches_positional_spec _ _ (by decide) (by decide),
    comparator_matches_positional_spec _ _ (by decide) (by decide)⟩

/-- C6: the comparator accepts every well-formed dotted-numeric version
string compared against itself. -/
theorem comparator_reflexive (s : GoStr) (h : wellFormed s = true) :
    validateBinaryVersionGreaterOrEqual s s = .ok () := by
  rw [validate_eq_spec s s h h, if_pos (specCompareGE_refl _)]

/-- Witness for C6 at the concrete string 1.2.3. -/
theorem comparator_reflexive_witness :
    validateBinaryVersionGreaterOrEqual (toChars "1.2.3") (toChars "1.2.3") = .ok () :=
  comparator_reflexive _ (by decide)

/-- C5 (amended): on well-formed dotted-numeric version strings the success
relation of the comparator is a total preorder — total and transitive — and
both directions succeed exactly when the two strings parse to the same
integer sequence (not necessarily when they are the same string). -/
theorem comparator_total_preorder (a b c : GoStr)
    (ha : wellFormed a = true) (hb : wellFormed b = true) (hc : wellFormed c = true) :
    (validateBinaryVersionGreaterOrEqual a b = .ok () ∨
       validateBinaryVersionGreaterOrEqual b a = .ok ()) ∧
    (validateBinaryVersionGreaterOrEqual a b = .ok () →
       validateBinaryVersionGreaterOrEqual b c = .ok () →
       validateBinaryVersionGreaterOrEqual a c = .ok ()) ∧
    (validateBinaryVersionGreaterOrEqual a b = .ok () ∧
       validateBinaryVersionGreaterOrEqual b a = .ok () ↔
       parseSeq a = parseSeq b) := by
  refine ⟨?_, ?_, ?_, ?_⟩
  · rcases specCompareGE_total (parseSeq a) (parseSeq b) with h | h
    · exact .inl ((validate_ok_iff ha hb).mpr h)
    · exact .inr ((validate_ok_iff hb ha).mpr h)
  · intro hab hbc
    exact (validate_ok_iff ha hc).mpr
      (specCompareGE_trans _ _ _
        ((validate_ok_iff ha hb).mp hab) ((validate_ok_iff hb hc).mp hbc))
  · rintro ⟨hab, hba⟩
    exact specCompareGE_antisymm _ _
      ((validate_ok_iff ha hb).mp hab) ((validate_ok_iff hb ha).mp hba)
  · intro h
    refine ⟨(validate_ok_iff ha hb).mpr ?_, (validate_ok_iff hb ha).mpr ?_⟩
    · rw [h]; exact specCompareGE_refl _
    · rw [h]; exact specCompareGE_refl _

/-- Counterexample for C5 as stated: 01 and 1 are distinct well-formed
dotted-numeric strings, yet the comparator succeeds in both directions, so
the relation is not antisymmetric with respect to string identity. -/
theorem comparator_antisymmetry_fails_on_strings :
    wellFormed (toChars "01") = true ∧ wellFormed (toChars "1") = true ∧
    validateBinaryVersionGreaterOrEqual (toChars "01") (toChars "1") = .ok () ∧
    validateBinaryVersionGreaterOrEqual (toChars "1") (toChars "01") = .ok () ∧
    toChars "01" ≠ toChars "1" := by decide

/-- Witness for C5 (amended), totality at the concrete pair 1.3 and 1.2. -/
theorem comparator_total_preorder_witness :
    validateBinaryVersionGreaterOrEqual (toChars "1.3") (toChars "1.2") = .ok () ∨
    validateBinaryVersionGreaterOrEqual (toChars "1.2") (toChars "1.3") = .ok () :=
  (comparator_total_preorder (toChars "1.3") (toChars "1.2") (toChars "9.9")
    (by decide) (by decide) (by decide)).1

/-- C4 (amended): the comparator parses only the segments at indices below
the shorter segment count.  If all earlier compared segments parse to equal
values and at index i the first string's segment is rejected by Atoi, it
fails with the invalid-format error naming the first string; if the first
parses and the second's is rejected, it fails naming the second.  When all
segments below the shorter length parse (possibly as negative integers),
no invalid-format error occurs: the result is success or version-too-low. -/
theorem comparator_invalid_format_detection (s1 s2 : GoStr)
    (h1 : s1 ≠ []) (h2 : s2 ≠ []) :
    (∀ i, i < min (splitDots s1).length (splitDots s2).length →
      (∀ j, j < i → (atoi ((splitDots s1).getD j []) = atoi ((splitDots s2).getD j []) ∧
         (atoi ((splitDots s1).getD j [])).isSome = true)) →
      ((atoi ((splitDots s1).getD i []) = none →
          validateBinaryVersionGreaterOrEqual s1 s2 =
            .error (.invalidFormatVersion s1)) ∧
       (∀ v : Int, atoi ((splitDots s1).getD i []) = some v →
          atoi ((splitDots s2).getD i []) = none →
          validateBinaryVersionGreaterOrEqual s1 s2 =
            .error (.invalidFormatVersion s2)))) ∧
    ((∀ i, i < min (splitDots s1).length (splitDots s2).length →
        (atoi ((splitDots s1).getD i [])).isSome = true ∧
        (atoi ((splitDots s2).getD i [])).isSome = true) →
      validateBinaryVersionGreaterOrEqual s1 s2 = .ok () ∨
      validateBinaryVersionGreaterOrEqual s1 s2 =
        .error (.versionTooLow s1 s2)) := by
  rw [validate_unfold h1 h2]
  constructor
  · intro i hi hprev
    exact compareLoop_invalidFormat s1 s2 _ _ i hi (fun j hj => by
      obtain ⟨heq, hsome⟩ := hprev j hj
      obtain ⟨v, hv⟩ := Option.isSome_iff_exists.mp hsome
      exact ⟨v, hv, heq ▸ hv⟩)
  · intro hall
    rw [compareLoop_eq_spec s1 s2 _ _ hall]
    cases specCompareGE ((splitDots s1).map fun p => (atoi p).getD 0)
        ((splitDots s2).map fun p => (atoi p).getD 0) <;> simp

/-- Counterexample for C4 as stated: the segment abc of 1.abc is not
parseable, yet the comparison against 1 succeeds, because segments past the
shorter length are never parsed; and the segment -1 parses as a negative
integer, so 1.2 against -1.2 succeeds instead of failing with an
invalid-format error. -/
theorem comparator_unparseable_segment_counterexample :
    (toChars "abc" ∈ splitDots (toChars "1.abc")) ∧
    atoi (toChars "abc") = none ∧
    validateBinaryVersionGreaterOrEqual (toChars "1.abc") (toChars "1") = .ok () ∧
    atoi (toChars "-1") = some (-1) ∧
    validateBinaryVersionGreaterOrEqual (toChars "1.2") (toChars "-1.2") = .ok () := by
  decide

/-- Witness for C4 (amended): 1.x.3 against 1.2 fails at index 1 with the
invalid-format error naming 1.x.3. -/
theorem comparator_invalid_format_detection_witness :
    validateBinaryVersionGreaterOrEqual (toChars "1.x.3") (toChars "1.2") =
      .error (.invalidFormatVersion (toChars "1.x.3")) :=
  ((comparator_invalid_format_detection (toChars "1.x.3") (toChars "1.2")
      (by decide) (by decide)).1 1 (by decide) (by decide)).1 (by decide)

theorem splitDots_ne_nil (s : GoStr) : splitDots s ≠ [] := by
  cases s with
  | nil => simp [splitDots]
  | cons c t =>
    simp only [splitDots]
    split
    · simp
    · split <;> simp

theorem splitDots_dot (t : GoStr) : splitDots ('.' :: t) = [] :: splitDots t := by
  simp [splitDots]

theorem splitDots_cons_of_ne {c : Char} (hc : ¬ c = '.') {t : GoStr} {h : GoStr}
    {tl : List GoStr} (hsp : splitDots t = h :: tl) :
    splitDots (c :: t) = (c :: h) :: tl := by
  simp only [splitDots, if_neg hc, hsp]

theorem splitDots_nodot : ∀ {l : GoStr}, (∀ c ∈ l, ¬ c = '.') → splitDots l = [l]
  | [], _ => rfl
  | c :: t, h => by
    have ht := splitDots_nodot (fun x hx => h x (List.mem_cons_of_mem c hx))
    exact splitDots_cons_of_ne (h c (List.mem_cons_self c t)) ht

theorem splitDots_append_nodot : ∀ {d : GoStr}, (∀ c ∈ d, ¬ c = '.') → ∀ w : GoStr,
    splitDots (d ++ '.' :: w) = d :: splitDots w
  | [], _, w => by simpa using splitDots_dot w
  | c :: dd, h, w => by
    have hrest := splitDots_append_nodot (fun x hx => h x (List.mem_cons_of_mem c hx)) w
    rw [List.cons_append]
    exact splitDots_cons_of_ne (h c (List.mem_cons_self c dd)) hrest

theorem digit_ne_dot {c : Char} (h : c.isDigit = true) : ¬ c = '.' := by
  intro he
  rw [he] at h
  exact absurd h (by decide)

theorem join_split : ∀ s : GoStr, joinDots (splitDots s) = s
  | [] => rfl
  | c :: t => by
    have ih := join_split t
    by_cases hc : c = '.'
    · subst hc
      rw [splitDots_dot]
      cases hsp : splitDots t with
      | nil => exact absurd hsp (splitDots_ne_nil t)
      | cons h tl =>
        rw [hsp] at ih
        simp [joinDots, ih]
    · cases hsp : splitDots t with
      | nil => exact absurd hsp (splitDots_ne_nil t)
      | cons h tl =>
        rw [hsp] at ih
        rw [splitDots_cons_of_ne hc hsp]
        cases tl with
        | nil => simp [joinDots] at ih ⊢; rw [ih]
        | cons q tl2 =>
          simp only [joinDots] at ih ⊢
          rw [← ih]
          simp

theorem matchGroups_sound : ∀ (fuel : Nat) (s : GoStr),
    (matchGroups fuel s).1 ++ (matchGroups fuel s).2 = s ∧
    ((matchGroups fuel s).1 = [] ∨ Groups (matchGroups fuel s).1)
  | 0, s => by simp [matchGroups]
  | fuel + 1, [] => by simp [matchGroups]
  | fuel + 1, c :: r => by
    by_cases hc : c = '.'
    · by_cases he : (r.takeWhile Char.isDigit).isEmpty
      · simp only [matchGroups, if_pos hc, if_pos he]
        simp
      · obtain ⟨ha, hg⟩ := matchGroups_sound fuel (r.dropWhile Char.isDigit)
        simp only [matchGroups, if_pos hc, if_neg he]
        constructor
        · rw [List.cons_append, List.append_assoc, ha,
            List.takeWhile_append_dropWhile]
        · right
          subst hc
          have hd : r.takeWhile Char.isDigit ≠ [] := by
            simpa [List.isEmpty_iff] using he
          have hdig : (r.takeWhile Char.isDigit).all Char.isDigit = true := by
            rw [List.all_eq_true]
            exact fun a ha2 => List.mem_takeWhile_imp ha2
          rcases hg with hg | hg
          · rw [hg, List.append_nil]
            exact Groups.one _ hd hdig
          · exact Groups.cons _ _ hd hdig hg
    · simp only [matchGroups, if_neg hc]
      simp

theorem groups_isVersionToken {g : GoStr} (hg : Groups g) : ∀ d : GoStr, d ≠ [] →
    d.all Char.isDigit = true → isVersionToken (d ++ g) = true := by
  induction hg with
  | one p hp hpd =>
    intro d hd hdd
    rw [List.all_eq_true] at hdd hpd
    have hnd : ∀ c ∈ d, ¬ c = '.' := fun c hc => digit_ne_dot (hdd c hc)
    have hnp : ∀ c ∈ p, ¬ c = '.' := fun c hc => digit_ne_dot (hpd c hc)
    unfold isVersionToken
    rw [splitDots_append_nodot hnd, splitDots_nodot hnp]
    simp [List.isEmpty_iff, hd, hp, List.all_eq_true]
    exact ⟨fun c hc => hdd c hc, fun c hc => hpd c hc⟩
  | cons p g2 hp hpd _ ih =>
    intro d hd hdd
    rw [List.all_eq_true] at hdd
    have hnd : ∀ c ∈ d, ¬ c = '.' := fun c hc => digit_ne_dot (hdd c hc)
    have token2 := ih p hp hpd
    unfold isVersionToken at token2 ⊢
    rw [splitDots_append_nodot hnd]
    simp only [Bool.and_eq_true, decide_eq_true_eq, List.all_eq_true,
      List.length_cons] at token2 ⊢
    refine ⟨by omega, ?_⟩
    intro x hx
    rcases List.mem_cons.mp hx with hx | hx
    · subst hx
      simp [List.isEmpty_iff, hd, List.all_eq_true]
      exact fun c hc => hdd c hc
    · exact token2.2 x hx

theorem matchAt_nil : matchAt [] = none := rfl

theorem matchAt_sound {s v : GoStr} (h : matchAt s = some v) :
    isVersionToken v = true ∧ ∃ rest, s = v ++ rest := by
  unfold matchAt at h
  by_cases he : (s.takeWhile Char.isDigit).isEmpty
  · rw [if_pos he] at h; cases h
  · rw [if_neg he] at h
    by_cases hg : ((matchGroups s.length (s.dropWhile Char.isDigit)).1).isEmpty
    · rw [if_pos hg] at h; cases h
    · rw [if_neg hg] at h
      obtain ⟨ha, hgr⟩ := matchGroups_sound s.length (s.dropWhile Char.isDigit)
      have hd : s.takeWhile Char.isDigit ≠ [] := by
        simpa [List.isEmpty_iff] using he
      have hg2 : (matchGroups s.length (s.dropWhile Char.isDigit)).1 ≠ [] := by
        simpa [List.isEmpty_iff] using hg
      rcases hgr with h0 | hgroups
      · exact absurd h0 hg2
      · have hdig : (s.takeWhile Char.isDigit).all Char.isDigit = true := by
          rw [List.all_eq_true]
          exact fun a ha2 => List.mem_takeWhile_imp ha2
        have hv := (Option.some.inj h).symm
        constructor
        · rw [hv]
          exact groups_isVersionToken hgroups _ hd hdig
        · refine ⟨(matchGroups s.length (s.dropWhile Char.isDigit)).2, ?_⟩
          rw [hv, List.append_assoc, ha, List.takeWhile_append_dropWhile]

theorem matchAt_isSome_of_token (v rest : GoStr) (hv : isVersionToken v = true) :
    (matchAt (v ++ rest)).isSome = true := by
  unfold isVersionToken at hv
  simp only [Bool.and_eq_true, decide_eq_true_eq, List.all_eq_true] at hv
  obtain ⟨hlen, hall⟩ := hv
  cases hsp : splitDots v with
  | nil => exact absurd hsp (splitDots_ne_nil v)
  | cons p0 L =>
    cases L with
    | nil => rw [hsp] at hlen; simp at hlen
    | cons p1 ps =>
      rw [hsp] at hall
      have h0 := hall p0 (by simp)
      have h1 := hall p1 (by simp)
      have hp0 : p0 ≠ [] := by simpa [List.isEmpty_iff] using h0.1
      have hp1 : p1 ≠ [] := by simpa [List.isEmpty_iff] using h1.1
      have hv0 : v = p0 ++ '.' :: joinDots (p1 :: ps) := by
        conv_lhs => rw [← join_split v]
        rw [hsp]
        cases ps <;> simp [joinDots]
      obtain ⟨tail, htail⟩ : ∃ tail, joinDots (p1 :: ps) = p1 ++ tail := by
        cases ps with
        | nil => exact ⟨[], by simp [joinDots]⟩
        | cons q qs => exact ⟨'.' :: joinDots (q :: qs), by simp [joinDots]⟩
      have hs : v ++ rest = p0 ++ '.' :: (p1 ++ (tail ++ rest)) := by
        rw [hv0, htail]
        simp [List.append_assoc]
      have htw : (v ++ rest).takeWhile Char.isDigit = p0 := by
        rw [hs, List.takeWhile_append_of_pos h0.2,
          List.takeWhile_cons_of_neg (by decide), List.append_nil]
      have hdw : (v ++ rest).dropWhile Char.isDigit = '.' :: (p1 ++ (tail ++ rest)) := by
        rw [hs, List.dropWhile_append_of_pos h0.2,
          List.dropWhile_cons_of_neg (by decide)]
      have htw1 : (p1 ++ (tail ++ rest)).takeWhile Char.isDigit =
          p1 ++ (tail ++ rest).takeWhile Char.isDigit :=
        List.takeWhile_append_of_pos h1.2
      cases hL : (v ++ rest).length with
      | zero =>
        rw [List.length_eq_zero] at hL
        rw [hL] at hs
        exact absurd hs.symm (by simp [hp0])
      | succ n =>
        unfold matchAt
        rw [hL, htw, hdw]
        rw [if_neg (by simpa [List.isEmpty_iff] using hp0)]
        rw [matchGroups, if_pos rfl, htw1,
          if_neg (by simp [List.isEmpty_iff, hp1])]
        simp

theorem findVersion_eq_none_iff : ∀ s : GoStr,
    findVersion s = none ↔ ∀ i : Nat, matchAt (s.drop i) = none
  | [] => by
    constructor
    · intro _ i
      rw [List.drop_nil]
      exact matchAt_nil
    · intro _
      rfl
  | c :: t => by
    rw [findVersion]
    cases hm : matchAt (c :: t) with
    | some w =>
      constructor
      · intro h; cases h
      · intro h
        have := h 0
        rw [List.drop_zero, hm] at this
        cases this
    | none =>
      rw [findVersion_eq_none_iff t]
      constructor
      · intro h i
        cases i with
        | zero => rw [List.drop_zero]; exact hm
        | succ j => rw [List.drop_succ_cons]; exact h j
      · intro h j
        have := h (j + 1)
        rwa [List.drop_succ_cons] at this

theorem findVersion_eq_some : ∀ {s v : GoStr}, findVersion s = some v →
    ∃ i, i ≤ s.length ∧ matchAt (s.drop i) = some v ∧
      ∀ j, j < i → matchAt (s.drop j) = none
  | [], v => by intro h; cases h
  | c :: t, v => by
    intro h
    rw [findVersion] at h
    cases hm : matchAt (c :: t) with
    | some w =>
      rw [hm] at h
      refine ⟨0, by simp, ?_, by omega⟩
      rw [List.drop_zero, hm]
      exact h
    | none =>
      rw [hm] at h
      obtain ⟨i, hle, hsome, hnone⟩ := findVersion_eq_some h
      refine ⟨i + 1, by simpa using hle, ?_, ?_⟩
      · rwa [List.drop_succ_cons]
      · intro j hj
        cases j with
        | zero => rw [List.drop_zero]; exact hm
        | succ j2 =>
          rw [List.drop_succ_cons]
          exact hnone j2 (by omega)

theorem findVersion_isSome_iff (s : GoStr) :
    (findVersion s).isSome = true ↔
      ∃ pre v post, s = pre ++ v ++ post ∧ isVersionToken v = true := by
  constructor
  · intro h
    obtain ⟨v, hv⟩ := Option.isSome_iff_exists.mp h
    obtain ⟨i, hle, hsome, _⟩ := findVersion_eq_some hv
    obtain ⟨htok, rest, hrest⟩ := matchAt_sound hsome
    refine ⟨s.take i, v, rest, ?_, htok⟩
    rw [List.append_assoc, ← hrest, List.take_append_drop]
  · rintro ⟨pre, v, post, hdec, htok⟩
    by_contra hn
    have hnone : findVersion s = none := by
      cases hf : findVersion s with
      | none => rfl
      | some w => rw [hf] at hn; simp at hn
    have hall := (findVersion_eq_none_iff s).mp hnone pre.length
    have hdrop : s.drop pre.length = v ++ post := by
      rw [hdec, List.append_assoc, List.drop_left]
    rw [hdrop] at hall
    have hsome := matchAt_isSome_of_token v post htok
    rw [hall] at hsome
    cases hsome

theorem matchString_iff (s : GoStr) :
    matchString s = true ↔
      ∃ pre v post, s = pre ++ v ++ post ∧ isVersionToken v = true := by
  unfold matchString
  exact findVersion_isSome_iff s

/-- C7: the extractor returns the leftmost substring matching the version
pattern verbatim when one exists (no matching substring starts earlier),
and fails with the no-version-found error exactly when no substring of the
text matches. -/
theorem extractVersion_first_leftmost (output : GoStr) :
    (extractVersionFromShellCommandOutput output = .error .noVersionFound ↔
      ∀ pre v post, output = pre ++ v ++ post → isVersionToken v = false) ∧
    (∀ v, extractVersionFromShellCommandOutput output = .ok v →
      isVersionToken v = true ∧
      ∃ pre post, output = pre ++ v ++ post ∧
        ∀ pre2 w post2, output = pre2 ++ w ++ post2 → isVersionToken w = true →
          pre.length ≤ pre2.length) := by
  have herr : extractVersionFromShellCommandOutput output = .error .noVersionFound ↔
      findVersion output = none := by
    unfold extractVersionFromShellCommandOutput
    cases findVersion output <;> simp
  constructor
  · rw [herr, ← Option.not_isSome_iff_eq_none, findVersion_isSome_iff]
    simp only [not_exists, not_and, Bool.not_eq_true]
  · intro v hv
    have hsome : findVersion output = some v := by
      unfold extractVersionFromShellCommandOutput at hv
      cases hf : findVersion output with
      | none => rw [hf] at hv; cases hv
      | some w => rw [hf] at hv; cases hv; rfl
    obtain ⟨i, hle, hmat, hnone⟩ := findVersion_eq_some hsome
    obtain ⟨htok, rest, hrest⟩ := matchAt_sound hmat
    refine ⟨htok, output.take i, rest, ?_, ?_⟩
    · rw [List.append_assoc, ← hrest, List.take_append_drop]
    · intro pre2 w post2 hdec2 htok2
      rw [List.length_take]
      by_contra hlt
      push_neg at hlt
      have hj := hnone pre2.length (by omega)
      have hdrop2 : output.drop pre2.length = w ++ post2 := by
        rw [hdec2, List.append_assoc, List.drop_left]
      have hw2 := matchAt_isSome_of_token w post2 htok2
      rw [hdrop2] at hj
      rw [hj] at hw2
      cases hw2

/-- Witness for C7: in text containing two dotted runs the extractor
returns the leftmost one, verbatim. -/
theorem extractVersion_first_leftmost_witness :
    isVersionToken (toChars "1.2.3") = true ∧
    extractVersionFromShellCommandOutput (toChars "Terraform v1.2.3 on 9.9") =
      .ok (toChars "1.2.3") :=
  ⟨((extractVersion_first_leftmost (toChars "Terraform v1.2.3 on 9.9")).2
      (toChars "1.2.3") (by decide)).1, by decide⟩

theorem validateParams_characterization (p : CheckVersionParams)
    (hb0 : ¬ p.binary < 0) (hw : p.workingDir ≠ []) :
    (validateParams p = .ok () ↔
      ∃ pre v post, p.expectedVersion = pre ++ v ++ post ∧ isVersionToken v = true) ∧
    (p.expectedVersion ≠ [] → validateParams p ≠ .ok () →
      validateParams p = .error (.invalidExpectedVersionFormat p.expectedVersion)) := by
  unfold validateParams
  by_cases he : p.expectedVersion.length = 0
  · rw [if_pos he]
    rw [List.length_eq_zero] at he
    constructor
    · constructor
      · intro h; cases h
      · rintro ⟨pre, v, post, hdec, htok⟩
        rw [he] at hdec
        have hnil := List.append_eq_nil.mp
          (List.append_eq_nil.mp hdec.symm).1
        rw [hnil.2] at htok
        exact absurd htok (by decide)
    · intro hne _
      exact absurd he hne
  · rw [if_neg he, if_neg (fun hh => hw (List.length_eq_zero.mp hh)), if_neg hb0]
    cases hm : matchString p.expectedVersion
    · rw [if_neg Bool.false_ne_true]
      constructor
      · constructor
        · intro h; cases h
        · intro hex
          have := (matchString_iff p.expectedVersion).mpr hex
          rw [hm] at this
          cases this
      · intro _ _
        rfl
    · rw [if_pos rfl]
      constructor
      · constructor
        · intro _
          exact (matchString_iff p.expectedVersion).mp hm
        · intro _
          rfl
      · intro _ hne
        exact absurd rfl hne

/-- C3 (amended): with a recognized binary and non-empty workingDir,
validateParams accepts expectedVersion exactly when it contains somewhere
a dotted-numeric run of at least two digit groups (the regex requires a
dot); a single digit group with no dot, such as 1, does not match and is
rejected with the invalid-format error naming expectedVersion. -/
theorem validateParams_format_check (p : CheckVersionParams)
    (hb : p.binary = Docker ∨ p.binary = Terraform ∨ p.binary = Packer)
    (hw : p.workingDir ≠ []) :
    (validateParams p = .ok () ↔
      ∃ pre v post, p.expectedVersion = pre ++ v ++ post ∧ isVersionToken v = true) ∧
    (p.expectedVersion ≠ [] → validateParams p ≠ .ok () →
      validateParams p = .error (.invalidExpectedVersionFormat p.expectedVersion)) :=
  validateParams_characterization p
    (by rcases hb with h | h | h <;> rw [h] <;> decide) hw

/-- Counterexample for C3 as stated: the single-group version 1 is claimed
accepted, but the regex requires at least two digit groups, so
validateParams rejects it with the invalid-format error. -/
theorem validateParams_rejects_single_group :
    validateParams ⟨Docker, toChars "1", toChars "."⟩ =
      .error (.invalidExpectedVersionFormat (toChars "1")) := by decide

/-- Witness for C3 (amended) at the accepted two-group version 1.2. -/
theorem validateParams_format_check_witness :
    validateParams ⟨Docker, toChars "1.2", toChars "."⟩ = .ok () :=
  ((validateParams_format_check ⟨Docker, toChars "1.2", toChars "."⟩
      (.inl rfl) (by decide)).1).mpr
    ⟨[], toChars "1.2", [], by decide, by decide⟩

/-- C9: the regex match is unanchored, so validateParams accepts any
expectedVersion that merely contains a dotted-numeric run somewhere inside
it, given a recognized binary and a non-empty workingDir. -/
theorem validateParams_accepts_embedded_run (p : CheckVersionParams)
    (hb : p.binary = Docker ∨ p.binary = Terraform ∨ p.binary = Packer)
    (hw : p.workingDir ≠ [])
    (hrun : ∃ pre v post, p.expectedVersion = pre ++ v ++ post ∧
      isVersionToken v = true) :
    validateParams p = .ok () :=
  ((validateParams_characterization p
      (by rcases hb with h | h | h <;> rw [h] <;> decide) hw).1).mpr hrun

/-- Witness for C9: abc1.2def is accepted although the whole string is not
a dotted-numeric version. -/
theorem validateParams_accepts_embedded_run_witness :
    validateParams ⟨Docker, toChars "abc1.2def", toChars "."⟩ = .ok () :=
  validateParams_accepts_embedded_run _ (.inl rfl) (by decide)
    ⟨toChars "abc", toChars "1.2", toChars "def", by decide, by decide⟩

/-- C2 (amended): with non-empty expectedVersion and workingDir,
validateParams rejects the binary field exactly when it is negative;
non-negative unrecognized values (3 and above) pass this validation and
are caught only later, by the fatal branch of getVersionWithShellCommand. -/
theorem validateParams_binary_check (p : CheckVersionParams)
    (he : p.expectedVersion ≠ []) (hw : p.workingDir ≠ []) :
    (validateParams p = .error .emptyBinary ↔ p.binary < 0) ∧
    (3 ≤ p.binary →
      validateParams p ≠ .error .emptyBinary ∧
      ∀ runner, getVersionWithShellCommand runner p = .error .unsupportedBinaryFatal) := by
  have hne : ¬ p.expectedVersion.length = 0 :=
    fun hh => he (List.length_eq_zero.mp hh)
  have hnw : ¬ p.workingDir.length = 0 :=
    fun hh => hw (List.length_eq_zero.mp hh)
  constructor
  · constructor
    · intro h
      unfold validateParams at h
      rw [if_neg hne, if_neg hnw] at h
      by_contra hneg
      rw [if_neg hneg] at h
      cases hm : matchString p.expectedVersion <;> rw [hm] at h <;> simp at h
    · intro h
      unfold validateParams
      rw [if_neg hne, if_neg hnw, if_pos h]
  · intro h3
    constructor
    · unfold validateParams
      rw [if_neg hne, if_neg hnw, if_neg (by omega)]
      cases hm : matchString p.expectedVersion <;> simp
    · intro runner
      unfold getVersionWithShellCommand
      have h0 : p.binary ≠ Docker := by unfold Docker; omega
      have h1 : p.binary ≠ Terraform := by unfold Terraform; omega
      have h2 : p.binary ≠ Packer := by unfold Packer; omega
      unfold binaryName
      rw [if_neg h0, if_neg h2, if_neg h1]

/-- Counterexample for C2 as stated: binary value 3 is outside the
enumeration yet passes validation; it is rejected only later, by the fatal
branch of the fetch stage. -/
theorem validateParams_accepts_unrecognized_binary :
    validateParams ⟨3, toChars "1.2", toChars "."⟩ = .ok () ∧
    getVersionWithShellCommand (fun _ => .ok []) ⟨3, toChars "1.2", toChars "."⟩ =
      .error .unsupportedBinaryFatal := by decide

/-- Witness for C2 (amended): the negative value -1 is rejected with the
binary-field error. -/
theorem validateParams_binary_check_witness :
    validateParams ⟨-1, toChars "1.2", toChars "."⟩ = .error .emptyBinary :=
  ((validateParams_binary_check ⟨-1, toChars "1.2", toChars "."⟩
      (by decide) (by decide)).1).mpr (by decide)

/-- C10: validateParams reports at most one error per call, chosen in the
fixed field order: empty expectedVersion first, then empty workingDir,
then negative binary, then the format check on expectedVersion. -/
theorem validateParams_error_order (p : CheckVersionParams) :
    (p.expectedVersion = [] → validateParams p = .error .emptyExpectedVersion) ∧
    (p.expectedVersion ≠ [] → p.workingDir = [] →
       validateParams p = .error .emptyWorkingDir) ∧
    (p.expectedVersion ≠ [] → p.workingDir ≠ [] → p.binary < 0 →
       validateParams p = .error .emptyBinary) ∧
    (p.expectedVersion ≠ [] → p.workingDir ≠ [] → ¬ p.binary < 0 →
       matchString p.expectedVersion = false →
       validateParams p = .error (.invalidExpectedVersionFormat p.expectedVersion)) := by
  refine ⟨?_, ?_, ?_, ?_⟩
  · intro h1
    unfold validateParams
    rw [if_pos (by rw [h1]; rfl)]
  · intro h1 h2
    unfold validateParams
    rw [if_neg (fun hh => h1 (List.length_eq_zero.mp hh)),
      if_pos (by rw [h2]; rfl)]
  · intro h1 h2 h3
    unfold validateParams
    rw [if_neg (fun hh => h1 (List.length_eq_zero.mp hh)),
      if_neg (fun hh => h2 (List.length_eq_zero.mp hh)), if_pos h3]
  · intro h1 h2 h3 h4
    unfold validateParams
    rw [if_neg (fun hh => h1 (List.length_eq_zero.mp hh)),
      if_neg (fun hh => h2 (List.length_eq_zero.mp hh)), if_neg h3,
      if_neg (by rw [h4]; exact Bool.false_ne_true)]

/-- Witness for C10: the all-empty params (binary zero value, both strings
empty) yield the empty-expectedVersion error. -/
theorem validateParams_error_order_witness :
    validateParams ⟨0, [], []⟩ = .error .emptyExpectedVersion :=
  (validateParams_error_order ⟨0, [], []⟩).1 rfl

/-- C8: CheckVersionE stops at the first failing stage: a validation error
is returned exactly as produced and the external runner is never consulted
(the result is independent of it); the comparator runs exactly when
validation and the fetch-plus-extraction stage both succeed. -/
theorem checkVersionE_short_circuit (p : CheckVersionParams) :
    (∀ e, validateParams p = .error e →
       ∀ runner, checkVersionE runner p = .error e) ∧
    (validateParams p ≠ .ok () →
       ∀ r1 r2, checkVersionE r1 p = checkVersionE r2 p) ∧
    (∀ runner v, validateParams p = .ok () →
       getVersionWithShellCommand runner p = .ok v →
       checkVersionE runner p =
         validateBinaryVersionGreaterOrEqual v p.expectedVersion) := by
  refine ⟨?_, ?_, ?_⟩
  · intro e he runner
    unfold checkVersionE
    rw [he]
  · intro hne r1 r2
    cases hv : validateParams p with
    | ok u => cases u; exact absurd hv hne
    | error e =>
      unfold checkVersionE
      rw [hv]
  · intro runner v hok hget
    unfold checkVersionE
    rw [hok, hget]

/-- Witness for C8: with minimum version abc, validation fails and
CheckVersionE returns that error whatever the runner does. -/
theorem checkVersionE_short_circuit_witness :
    checkVersionE (fun _ => .ok []) ⟨Docker, toChars "abc", toChars "."⟩ =
      .error (.invalidExpectedVersionFormat (toChars "abc")) :=
  (checkVersionE_short_circuit ⟨Docker, toChars "abc", toChars "."⟩).1
    _ (by decide) _

end VersionChecker
